import Mathlib

/-!
Verification of the conversation-session core of a FastAPI chat application
(`src/main.py`).  The relevant Python functions are shallowly embedded as
Lean definitions (strings as `String`, the per-process engine cache and the
durable message store as association lists, fallible storage reads as
`Except`), and the specified properties are proved about those definitions.
-/

namespace ChatApp

/-! ## String helpers: faithful models of the Python string primitives used -/

/-- Model of Python `s.replace(c, r)` for a single-character pattern `c`,
at the character-list level: every occurrence of `c` is replaced by `r`.
For a one-character pattern, occurrences are exactly the positions holding
that character, so a character-wise scan is the whole behaviour. -/
def replChar (c : Char) (r : List Char) : List Char → List Char
  | [] => []
  | x :: xs => (if x = c then r else [x]) ++ replChar c r xs

/-- Model of Python `s.startswith(p)`: `p` is a leading run of `s`. -/
def pyStartsWith (s p : String) : Bool :=
  s.data.take p.data.length == p.data

/-- Model of Python `s.replace(patt, repl, 1)` at the character-list level:
scan left to right and rewrite only the first occurrence of `patt`. -/
def replFirstL (p r : List Char) : List Char → List Char
  | [] => if p = [] then r else []
  | c :: rest =>
      if (c :: rest).take p.length = p then r ++ (c :: rest).drop p.length
      else c :: replFirstL p r rest

/-- Model of Python `s.replace(patt, repl, 1)` on strings. -/
def pyReplaceFirst (s patt repl : String) : String :=
  String.mk (replFirstL patt.data repl.data s.data)

/-! ## Data model -/

/-- One stored conversational turn.  The source compares `msg.role` against
the strings `"user"` and `"assistant"`, so the role is a string here too. -/
structure Message where
  role : String
  content : String
deriving DecidableEq

/-- A storage-layer fault raised by the durable message store. -/
structure StorageError where
  msg : String
deriving DecidableEq

/-- The value cached per session key in `user_chat_engines`: a chat engine
whose memory buffer is bound to the key and hydrated with the messages
loaded from the durable store at construction time. -/
structure ChatEngine where
  key : String
  memory : List Message
deriving DecidableEq

/-- The durable message store, keyed by session key: the association of
each key to its ordered message log (`llamaindex_simple_chat_history`). -/
def MessageStore := List (String × List Message)

/-- The process-wide engine cache `user_chat_engines` (a Python dict). -/
def EngineCache := List (String × ChatEngine)

/-! ## Session keys (`key = f"{user_id}_{thread_id}"`, lines 87, 238, 269) -/

/-- The session key built in `get_chat_engine`, `get_thread_messages` and
`delete_thread`: the f-string `f"{user_id}_{thread_id}"`. -/
def sessionKey (user_id thread_id : String) : String :=
  user_id ++ "_" ++ thread_id

/-! ## Message store operations (external `PostgresChatStore`) -/

/-- Modelled from the spec: the Message Store's `readAll(key)` — the
library call `chat_store.get_messages(key)`, whose implementation is not
under `src/` — returns the full durable log for a key, oldest first, and
the empty sequence if the key is unknown. -/
def get_messages (store : MessageStore) (key : String) : List Message :=
  match List.lookup key store with
  | some msgs => msgs
  | none => []

/-- Modelled from the spec: the Message Store's `deleteAll(key)` — the
library call `chat_store.delete_messages(key)`, whose implementation is
not under `src/` — removes the entire log for a key; deleting an absent
key is a no-op, not an error. -/
def delete_messages (store : MessageStore) (key : String) : MessageStore :=
  store.filter (fun p => p.1 != key)

/-! ## Session registry (`get_chat_engine`, lines 82–112) -/

/-- The registry resolution `get_chat_engine(user_id, thread_id)`:
if the key is cached, return the cached engine and leave the cache alone;
otherwise read the durable log (which may raise a storage error, modelled
by the `store` argument returning `Except`), build an engine hydrated with
the loaded messages, insert it under the key, and return it.  The result
pairs the returned value (or the propagated error) with the cache state
after the call. -/
def get_chat_engine (store : String → Except StorageError (List Message))
    (cache : EngineCache) (user_id thread_id : String) :
    Except StorageError ChatEngine × EngineCache :=
  let key := sessionKey user_id thread_id
  match List.lookup key cache with
  | some engine => (.ok engine, cache)
  | none =>
      match store key with
      | .error e => (.error e, cache)
      | .ok existing_messages =>
          let engine : ChatEngine := ⟨key, existing_messages⟩
          (.ok engine, (key, engine) :: cache)

/-! ## Stream relay (`chat.generate`, lines 142–154) -/

/-- The escaping done to each streamed token in `chat.generate`
(line 149): `token.replace("<", "&lt;").replace(">", "&gt;")`,
the two single-character replacements applied in sequence. -/
def safe_token (t : String) : String :=
  String.mk (replChar '>' "&gt;".data (replChar '<' "&lt;".data t.data))

/-- The opening fragments yielded by `generate` before any token
(lines 144–145). -/
def chatPrologue : List String :=
  ["<div class=\"chat chat-start\" hx-swap-oob=\"beforeend:#messages\">",
   "<div class=\"chat-bubble chat-bubble-secondary\">"]

/-- The closing fragment yielded by `generate` after the last token
(line 152). -/
def chatEpilogue : List String := ["</div></div>"]

/-- The streaming generator of `POST /api/chat` (lines 142–153): yield the
prologue fragments, then one escaped fragment per produced token, in
order, then the epilogue fragment.  The fragment list is the sequence of
`yield`s in emission order. -/
def generate (tokens : List String) : List String :=
  chatPrologue ++ tokens.map safe_token ++ chatEpilogue

/-- The escaping in the words of the spec: each token transformed
independently, with every reserved markup character replaced by its safe
textual equivalent in a single pass over the token. -/
def specEscapeL : List Char → List Char
  | [] => []
  | x :: xs =>
      (if x = '<' then "&lt;".data else if x = '>' then "&gt;".data else [x])
        ++ specEscapeL xs

/-- Spec-side escaping on strings. -/
def specEscape (t : String) : String := String.mk (specEscapeL t.data)

/-! ## Thread listing (`get_threads`, lines 204–228) -/

/-- The local `threads` list of `get_threads` (lines 216–222): keep the
stored keys that start with `f"{user_id}_"` and strip that leading run
from each with `key.replace(user_prefix, "", 1)`. -/
def threadsOf (user_id : String) (all_keys : List String) : List String :=
  (all_keys.filter (fun k => pyStartsWith k (user_id ++ "_"))).map
    (fun k => pyReplaceFirst k (user_id ++ "_") "")

/-- The endpoint `GET /api/threads` (lines 204–228) as a function of the
stored key enumeration: derive the user's thread ids, then prepend
`"default"` if it is not already present. -/
def get_threads (user_id : String) (all_keys : List String) : List String :=
  if "default" ∈ threadsOf user_id all_keys then threadsOf user_id all_keys
  else "default" :: threadsOf user_id all_keys

/-! ## Thread history (`get_thread_messages`, lines 231–259) -/

/-- Markup before the interpolated content for a `"user"` message
(the f-string of lines 247–251, up to `{msg.content}`). -/
def userMarkupPre : String :=
  "\n                <div class=\"chat chat-end\">\n                    <div class=\"chat-bubble chat-bubble-primary\">"

/-- Markup after the interpolated content for a `"user"` message. -/
def userMarkupSuf : String :=
  "</div>\n                </div>\n            "

/-- Markup before the interpolated content for an `"assistant"` message
(the f-string of lines 253–257, up to `{msg.content}`). -/
def assistantMarkupPre : String :=
  "\n                <div class=\"chat chat-start\">\n                    <div class=\"chat-bubble chat-bubble-secondary\">"

/-- Markup after the interpolated content for an `"assistant"` message. -/
def assistantMarkupSuf : String :=
  "</div>\n                </div>\n            "

/-- The rendering loop of `get_thread_messages` (lines 244–257): for each
stored message, append an HTML fragment interpolating `msg.content`
verbatim when the role is `"user"` or `"assistant"`, and append nothing
otherwise. -/
def html_messages : List Message → List String
  | [] => []
  | msg :: rest =>
      if msg.role = "user" then
        (userMarkupPre ++ msg.content ++ userMarkupSuf) :: html_messages rest
      else if msg.role = "assistant" then
        (assistantMarkupPre ++ msg.content ++ assistantMarkupSuf) :: html_messages rest
      else html_messages rest

/-- The fragment produced for one rendered message (used to state that the
rendering loop is a role-filter followed by a per-message map). -/
def renderMessage (m : Message) : String :=
  if m.role = "user" then userMarkupPre ++ m.content ++ userMarkupSuf
  else assistantMarkupPre ++ m.content ++ assistantMarkupSuf

/-- The endpoint `GET /api/threads/{thread_id}/messages` (lines 231–259):
read the durable log for the session key and render it. -/
def get_thread_messages (store : MessageStore) (user_id thread_id : String) :
    List String :=
  html_messages (get_messages store (sessionKey user_id thread_id))

/-! ## Thread deletion (`delete_thread`, lines 262–278) -/

/-- The endpoint `DELETE /api/threads/{thread_id}` (lines 262–278): delete
the durable log for the key, drop the key from the engine cache if
present, and return the success message.  The store deletion is the
spec-modelled `delete_messages` above. -/
def delete_thread (store : MessageStore) (cache : EngineCache)
    (user_id thread_id : String) : MessageStore × EngineCache × String :=
  (delete_messages store (sessionKey user_id thread_id),
   cache.filter (fun p => p.1 != sessionKey user_id thread_id),
   "Thread " ++ thread_id ++ " deleted")

/-! ## Memory window (external `ChatMemoryBuffer`, configured at lines 94–98) -/

/-- Total estimated token count of a window, for an estimator `est`. -/
def tokenTotal (est : Message → Nat) (w : List Message) : Nat :=
  (w.map est).sum

/-- Modelled from the spec: the Memory Window eviction policy of the
external `ChatMemoryBuffer` (constructed at lines 94–98 with
`token_limit=3000`; its implementation is not under `src/`): while the
estimated token total exceeds the limit, drop the oldest message from the
in-memory view, but never evict the last remaining message. -/
def evictLoop (est : Message → Nat) (token_limit : Nat) :
    List Message → List Message
  | [] => []
  | [m] => [m]
  | m :: m₂ :: rest =>
      if tokenTotal est (m :: m₂ :: rest) ≤ token_limit then m :: m₂ :: rest
      else evictLoop est token_limit (m₂ :: rest)

/-- One session's state: the durable log for its key, and the in-memory
window view used as model context. -/
structure SessionState where
  log : List Message
  window : List Message
deriving DecidableEq

/-- Modelled from the spec: the Memory Window `append` — record the
message in the durable log and in the view, then enforce the token
budget on the view only. -/
def appendMessage (est : Message → Nat) (token_limit : Nat)
    (s : SessionState) (m : Message) : SessionState :=
  ⟨s.log ++ [m], evictLoop est token_limit (s.window ++ [m])⟩

/-- An operation on one session: appending a message, or re-running the
window eviction on the view alone. -/
inductive SessionOp where
  | append (m : Message)
  | evictView
deriving DecidableEq

/-- Apply one session operation. -/
def applyOp (est : Message → Nat) (token_limit : Nat)
    (s : SessionState) : SessionOp → SessionState
  | .append m => appendMessage est token_limit s m
  | .evictView => ⟨s.log, evictLoop est token_limit s.window⟩

/-- The messages appended by a sequence of operations, in order. -/
def appendedMessages (ops : List SessionOp) : List Message :=
  ops.filterMap (fun op => match op with
    | .append m => some m
    | .evictView => none)

/-! ## Helper theorems -/

theorem strData_append (a b : String) : (a ++ b).data = a.data ++ b.data := rfl

theorem strData_inj {a b : String} (h : a.data = b.data) : a = b :=
  String.ext h

theorem replChar_append (c : Char) (r : List Char) (a b : List Char) :
    replChar c r (a ++ b) = replChar c r a ++ replChar c r b := by
  induction a with
  | nil => rfl
  | cons x xs ih => simp [replChar, ih]

theorem safe_token_eq_specEscapeL (l : List Char) :
    replChar '>' "&gt;".data (replChar '<' "&lt;".data l) = specEscapeL l := by
  induction l with
  | nil => rfl
  | cons x xs ih =>
      by_cases hlt : x = '<'
      · subst hlt
        have h1 : replChar '<' "&lt;".data ('<' :: xs)
            = "&lt;".data ++ replChar '<' "&lt;".data xs := by
          simp [replChar]
        rw [h1, replChar_append, ih]
        have h2 : replChar '>' "&gt;".data "&lt;".data = "&lt;".data := by decide
        rw [h2]
        simp [specEscapeL]
      · by_cases hgt : x = '>'
        · subst hgt
          simp [replChar, specEscapeL, hlt, ih]
        · simp [replChar, specEscapeL, hlt, hgt, ih]

theorem safe_token_eq_specEscape (t : String) : safe_token t = specEscape t :=
  congrArg String.mk (safe_token_eq_specEscapeL t.data)

theorem sessionKey_data (u t : String) :
    (sessionKey u t).data = u.data ++ '_' :: t.data := by
  simp [sessionKey, strData_append]

theorem sep_split_inj {l₁ l₂ r₁ r₂ : List Char}
    (h₁ : '_' ∉ l₁) (h₂ : '_' ∉ l₂)
    (h : l₁ ++ '_' :: r₁ = l₂ ++ '_' :: r₂) : l₁ = l₂ ∧ r₁ = r₂ := by
  induction l₁ generalizing l₂ with
  | nil =>
      cases l₂ with
      | nil => simpa using h
      | cons y ys =>
          simp only [List.nil_append, List.cons_append, List.cons.injEq] at h
          exact absurd (h.1 ▸ List.mem_cons_self y ys) h₂
  | cons x xs ih =>
      cases l₂ with
      | nil =>
          simp only [List.nil_append, List.cons_append, List.cons.injEq] at h
          exact absurd (h.1 ▸ List.mem_cons_self x xs) h₁
      | cons y ys =>
          simp only [List.cons_append, List.cons.injEq] at h
          have hx : '_' ∉ xs := fun hm => h₁ (List.mem_cons_of_mem _ hm)
          have hy : '_' ∉ ys := fun hm => h₂ (List.mem_cons_of_mem _ hm)
          obtain ⟨hl, hr⟩ := ih hx hy h.2
          exact ⟨by simp [h.1, hl], hr⟩

theorem lookup_filter_ne {α : Type} (key : String) (l : List (String × α)) :
    List.lookup key (l.filter (fun p => p.1 != key)) = none := by
  induction l with
  | nil => rfl
  | cons hd tl ih =>
      by_cases h : hd.1 = key
      · simpa [List.filter_cons, h] using ih
      · have hb : (hd.1 != key) = true := bne_iff_ne.mpr h
        have hb₂ : (key == hd.1) = false := beq_eq_false_iff_ne.mpr (Ne.symm h)
        simp [List.filter_cons, List.lookup, hb, hb₂, ih]

theorem evictLoop_budget (est : Message → Nat) (limit : Nat) (w : List Message) :
    tokenTotal est (evictLoop est limit w) ≤ limit ∨
      (evictLoop est limit w).length = 1 := by
  induction w with
  | nil => left; simp [evictLoop, tokenTotal]
  | cons m rest ih =>
      cases rest with
      | nil =>
          by_cases h : est m ≤ limit
          · left; simpa [evictLoop, tokenTotal] using h
          · right; simp [evictLoop]
      | cons m₂ rest₂ =>
          by_cases h : tokenTotal est (m :: m₂ :: rest₂) ≤ limit
          · left; simp [evictLoop, h]
          · have hstep : evictLoop est limit (m :: m₂ :: rest₂)
                = evictLoop est limit (m₂ :: rest₂) := by
              simp [evictLoop, h]
            rw [hstep]
            exact ih

theorem evictLoop_ne_nil (est : Message → Nat) (limit : Nat) :
    ∀ w : List Message, w ≠ [] → evictLoop est limit w ≠ [] := by
  intro w
  induction w with
  | nil => intro h; exact absurd rfl h
  | cons m rest ih =>
      intro _
      cases rest with
      | nil => simp [evictLoop]
      | cons m₂ rest₂ =>
          by_cases h : tokenTotal est (m :: m₂ :: rest₂) ≤ limit
          · simp [evictLoop, h]
          · have hstep : evictLoop est limit (m :: m₂ :: rest₂)
                = evictLoop est limit (m₂ :: rest₂) := by
              simp [evictLoop, h]
            rw [hstep]
            exact ih (List.cons_ne_nil _ _)

theorem foldl_append_budget (est : Message → Nat) (limit : Nat)
    (msgs : List Message) (s : SessionState)
    (hs : tokenTotal est s.window ≤ limit ∨ s.window.length = 1) :
    tokenTotal est ((msgs.foldl (appendMessage est limit) s).window) ≤ limit ∨
      ((msgs.foldl (appendMessage est limit) s).window).length = 1 := by
  induction msgs generalizing s with
  | nil => simpa using hs
  | cons m rest ih =>
      simp only [List.foldl_cons]
      exact ih _ (evictLoop_budget est limit (s.window ++ [m]))

theorem foldl_append_window_ne_nil (est : Message → Nat) (limit : Nat)
    (msgs : List Message) (s : SessionState) (hs : s.window ≠ []) :
    (msgs.foldl (appendMessage est limit) s).window ≠ [] := by
  induction msgs generalizing s with
  | nil => simpa using hs
  | cons m rest ih =>
      simp only [List.foldl_cons]
      exact ih _ (evictLoop_ne_nil est limit _ (by simp))

/-! ## Claim theorems -/

/-- Claim C1: for every finite token sequence from the completion service,
the streaming relay yields, in order, the prologue fragments, then one
fragment per token — that token with every reserved markup character
escaped, each token transformed independently — then the epilogue
fragment; in particular the tokens `["A", "<b>", "C"]` yield exactly the
fragments `"A"`, `"&lt;b&gt;"`, `"C"` between the prologue and the
epilogue. -/
theorem c1_stream_relay_escapes_per_token :
    (∀ tokens : List String,
        generate tokens = chatPrologue ++ tokens.map specEscape ++ chatEpilogue) ∧
    generate ["A", "<b>", "C"] =
      chatPrologue ++ ["A", "&lt;b&gt;", "C"] ++ chatEpilogue := by
  constructor
  · intro tokens
    unfold generate
    rw [funext safe_token_eq_specEscape]
  · decide

/-- Claim C3 fails as stated: the key derivation `f"{user_id}_{thread_id}"`
is not injective, because the delimiter may occur inside the components —
the distinct pairs `("a_b", "c")` and `("a", "b_c")` both derive the key
`"a_b_c"`. -/
theorem c3_key_not_injective :
    sessionKey "a_b" "c" = sessionKey "a" "b_c" ∧
    (("a_b", "c") : String × String) ≠ ("a", "b_c") := by
  refine ⟨by decide, by decide⟩

/-- Claim C3 (amended): the key derivation is injective on pairs whose
userId does not contain the `'_'` delimiter — if the derived keys are
equal then the user ids and thread ids agree. -/
theorem c3_key_injective_no_delimiter (u₁ t₁ u₂ t₂ : String)
    (h₁ : '_' ∉ u₁.data) (h₂ : '_' ∉ u₂.data)
    (h : sessionKey u₁ t₁ = sessionKey u₂ t₂) : u₁ = u₂ ∧ t₁ = t₂ := by
  have hd : u₁.data ++ '_' :: t₁.data = u₂.data ++ '_' :: t₂.data := by
    have h' := congrArg String.data h
    simpa [sessionKey_data] using h'
  obtain ⟨hu, ht⟩ := sep_split_inj h₁ h₂ hd
  exact ⟨strData_inj hu, strData_inj ht⟩

/-- Witness for the amended claim C3 at concrete inputs. -/
theorem c3_key_injective_witness : ("u1" : String) = "u1" ∧ ("t" : String) = "t" :=
  c3_key_injective_no_delimiter "u1" "t" "u1" "t" (by decide) (by decide) rfl

theorem key_of_startsWith (u k : String)
    (h : pyStartsWith k (u ++ "_") = true) :
    sessionKey u (String.mk (k.data.drop (u ++ "_").data.length)) = k := by
  have h' : k.data.take (u ++ "_").data.length = (u ++ "_").data := by
    simpa [pyStartsWith] using h
  apply strData_inj
  rw [sessionKey_data]
  conv_rhs => rw [← List.take_append_drop ((u ++ "_").data.length) k.data]
  rw [h']
  rw [show (u ++ "_").data = u.data ++ ['_'] from rfl]
  simp

theorem threadsOf_eq_nil (u : String) (all_keys : List String)
    (h : ∀ t : String, sessionKey u t ∉ all_keys) :
    threadsOf u all_keys = [] := by
  unfold threadsOf
  have hfilter : all_keys.filter (fun k => pyStartsWith k (u ++ "_")) = [] := by
    rw [List.filter_eq_nil_iff]
    intro k hk hpk
    exact h _ (by rw [key_of_startsWith u k hpk]; exact hk)
  rw [hfilter]
  rfl

/-- Claim C4: the thread listing always contains the default thread id
`"default"`, and for a user none of whose session keys appear in the
stored key enumeration it returns exactly `["default"]`. -/
theorem c4_thread_listing (u : String) (all_keys : List String) :
    "default" ∈ get_threads u all_keys ∧
    ((∀ t : String, sessionKey u t ∉ all_keys) →
        get_threads u all_keys = ["default"]) := by
  constructor
  · unfold get_threads
    by_cases h : "default" ∈ threadsOf u all_keys
    · rw [if_pos h]; exact h
    · rw [if_neg h]; exact List.mem_cons_self _ _
  · intro hp
    unfold get_threads
    rw [threadsOf_eq_nil u all_keys hp]
    simp

/-- Witness for claim C4: a user with an empty key enumeration. -/
theorem c4_thread_listing_witness :
    "default" ∈ get_threads "u2" [] ∧ get_threads "u2" [] = ["default"] :=
  ⟨(c4_thread_listing "u2" []).1,
   (c4_thread_listing "u2" []).2 (fun _ ht => List.not_mem_nil _ ht)⟩

/-- Claim C5: when the durable-log read fails during a first-time session
resolution, `get_chat_engine` returns that very storage error and leaves
the engine cache unchanged — no session is inserted for the key, and no
fresh empty session is handed to the caller. -/
theorem c5_storage_error_propagates
    (store : String → Except StorageError (List Message)) (cache : EngineCache)
    (u t : String) (e : StorageError)
    (hc : List.lookup (sessionKey u t) cache = none)
    (hs : store (sessionKey u t) = .error e) :
    get_chat_engine store cache u t = (.error e, cache) := by
  simp [get_chat_engine, hc, hs]

/-- Witness for claim C5: a store whose read always fails, an empty cache. -/
theorem c5_storage_error_witness :
    get_chat_engine (fun _ => .error ⟨"db down"⟩) [] "u1" "default"
      = (.error ⟨"db down"⟩, ([] : EngineCache)) :=
  c5_storage_error_propagates (fun _ => .error ⟨"db down"⟩) [] "u1" "default"
    ⟨"db down"⟩ rfl rfl

/-- Claim C6: thread deletion is idempotent — deleting the same thread
again returns the same store, cache and success message; after one
deletion the durable log for the key is empty; and the endpoint reports
success (the success string) for any input, including a key with no
stored messages and no cached session. -/
theorem c6_delete_thread_idempotent (store : MessageStore) (cache : EngineCache)
    (u t : String) :
    delete_thread (delete_thread store cache u t).1
        (delete_thread store cache u t).2.1 u t
      = delete_thread store cache u t ∧
    get_messages (delete_thread store cache u t).1 (sessionKey u t) = [] ∧
    (delete_thread store cache u t).2.2 = "Thread " ++ t ++ " deleted" := by
  refine ⟨?_, ?_, rfl⟩
  · unfold delete_thread delete_messages
    simp [List.filter_filter]
  · unfold delete_thread delete_messages get_messages
    rw [lookup_filter_ne]

/-- Claim C7: with the configured `token_limit = 3000`, after any sequence
of appends starting from a fresh session the retained window has estimated
token total at most 3000 or consists of exactly one message; and after at
least one append the window is never empty, so a single oversized message
is retained alone rather than evicted to an empty window. -/
theorem c7_token_budget_invariant (est : Message → Nat) (msgs : List Message) :
    (tokenTotal est ((msgs.foldl (appendMessage est 3000) ⟨[], []⟩).window) ≤ 3000 ∨
      ((msgs.foldl (appendMessage est 3000) ⟨[], []⟩).window).length = 1) ∧
    ∀ (m : Message) (rest : List Message),
      ((m :: rest).foldl (appendMessage est 3000) ⟨[], []⟩).window ≠ [] := by
  constructor
  · exact foldl_append_budget est 3000 msgs ⟨[], []⟩ (Or.inl (by simp [tokenTotal]))
  · intro m rest
    simp only [List.foldl_cons]
    exact foldl_append_window_ne_nil est 3000 rest _
      (evictLoop_ne_nil est 3000 _ (by simp))

/-- Claim C8: window eviction never touches the durable log — after any
sequence of appends and view evictions, the session's log is exactly the
initial log followed by the appended messages in order, so every appended
message is still read back in its original position with unchanged
content. -/
theorem c8_eviction_preserves_log (est : Message → Nat) (token_limit : Nat)
    (s : SessionState) (ops : List SessionOp) :
    (ops.foldl (applyOp est token_limit) s).log = s.log ++ appendedMessages ops := by
  induction ops generalizing s with
  | nil => simp [appendedMessages]
  | cons op rest ih =>
      cases op with
      | append m =>
          simp only [List.foldl_cons, applyOp]
          rw [ih]
          simp [appendMessage, appendedMessages, List.filterMap_cons]
      | evictView =>
          simp only [List.foldl_cons, applyOp]
          rw [ih]
          simp [appendedMessages, List.filterMap_cons]

/-- Claim C9: the thread-history renderer interpolates each stored user or
assistant message's content verbatim into its fragment — the raw content
(including any `<` and `>`) appears unescaped between fixed markup — while
the streaming chat path escapes the same characters per token. -/
theorem c9_history_verbatim :
    (∀ (msgs : List Message) (m : Message), m ∈ msgs →
        (m.role = "user" ∨ m.role = "assistant") →
        ∃ frag ∈ html_messages msgs, ∃ pre suf : List Char,
          frag.data = pre ++ m.content.data ++ suf) ∧
    html_messages [⟨"user", "A<b>C"⟩]
      = [userMarkupPre ++ "A<b>C" ++ userMarkupSuf] ∧
    safe_token "A<b>C" = "A&lt;b&gt;C" := by
  refine ⟨?_, by decide, by decide⟩
  intro msgs
  induction msgs with
  | nil => intro m hm; exact absurd hm (List.not_mem_nil m)
  | cons hd rest ih =>
      intro m hm hrole
      rcases List.mem_cons.mp hm with he | hmem
      · subst he
        rcases hrole with hu | ha
        · refine ⟨userMarkupPre ++ m.content ++ userMarkupSuf, ?_,
            userMarkupPre.data, userMarkupSuf.data, ?_⟩
          · simp [html_messages, hu]
          · simp [strData_append]
        · have hnu : ¬ m.role = "user" := by rw [ha]; decide
          refine ⟨assistantMarkupPre ++ m.content ++ assistantMarkupSuf, ?_,
            assistantMarkupPre.data, assistantMarkupSuf.data, ?_⟩
          · simp [html_messages, hnu, ha]
          · simp [strData_append]
      · obtain ⟨frag, hfrag, pre, suf, hdata⟩ := ih m hmem hrole
        refine ⟨frag, ?_, pre, suf, hdata⟩
        by_cases h₁ : hd.role = "user"
        · simp only [html_messages, if_pos h₁]
          exact List.mem_cons_of_mem _ hfrag
        · by_cases h₂ : hd.role = "assistant"
          · simp only [html_messages, if_neg h₁, if_pos h₂]
            exact List.mem_cons_of_mem _ hfrag
          · simp only [html_messages, if_neg h₁, if_neg h₂]
            exact hfrag

/-- Witness for claim C9: the fragment for a stored `<`-containing user
message contains the raw content. -/
theorem c9_history_verbatim_witness :
    ∃ frag ∈ html_messages [⟨"user", "A<b>C"⟩], ∃ pre suf : List Char,
      frag.data = pre ++ ("A<b>C" : String).data ++ suf :=
  c9_history_verbatim.1 [⟨"user", "A<b>C"⟩] ⟨"user", "A<b>C"⟩
    (List.mem_cons_self _ _) (Or.inl rfl)

/-- Claim C10: the thread-history renderer emits exactly one fragment per
stored message whose role is `"user"` or `"assistant"`, in stored order,
silently omitting every other role, so the output can be shorter than the
log; a log with a `"system"` message yields only the two fragments of the
other messages. -/
theorem c10_history_role_filter :
    (∀ msgs : List Message,
        html_messages msgs
          = (msgs.filter (fun m => m.role == "user" || m.role == "assistant")).map
              renderMessage) ∧
    (∀ msgs : List Message, (html_messages msgs).length ≤ msgs.length) ∧
    html_messages [⟨"user", "hi"⟩, ⟨"system", "sys"⟩, ⟨"assistant", "yo"⟩]
      = [userMarkupPre ++ "hi" ++ userMarkupSuf,
         assistantMarkupPre ++ "yo" ++ assistantMarkupSuf] := by
  have hmain : ∀ msgs : List Message,
      html_messages msgs
        = (msgs.filter (fun m => m.role == "user" || m.role == "assistant")).map
            renderMessage := by
    intro msgs
    induction msgs with
    | nil => rfl
    | cons hd rest ih =>
        by_cases h₁ : hd.role = "user"
        · simp [html_messages, List.filter_cons, h₁, renderMessage, ih, beq_iff_eq]
        · by_cases h₂ : hd.role = "assistant"
          · simp [html_messages, List.filter_cons, h₁, h₂, renderMessage, ih,
              beq_iff_eq]
          · simp [html_messages, List.filter_cons, h₁, h₂, ih, beq_iff_eq]
  refine ⟨hmain, ?_, by decide⟩
  intro msgs
  rw [hmain msgs]
  calc ((msgs.filter _).map renderMessage).length
      = (msgs.filter _).length := List.length_map _ _
    _ ≤ msgs.length := List.length_filter_le _ _

end ChatApp
